import Mathlib

/-!
Shallow embedding of `scalc.cpp`, a small interactive arithmetic REPL
(tokenizer, recursive-descent parser, AST evaluator, command tokenizer and
line-processing driver).

Embedding conventions, kept uniform throughout:

* C++ `double` is modelled as `ℚ` (exact arithmetic).  IEEE rounding,
  `Inf`/`NaN` and the value of division by zero (`ℚ` gives `0`, IEEE gives
  `Inf`) are abstracted away; no theorem below depends on them.
* Thrown `std::runtime_error`s become `Except.error` carrying the exact
  message string built by the source.  The evaluator additionally returns the
  variable map as it stood when the exception was thrown, because the C++
  code mutates the map in place (so mutations before a throw survive it).
* The transcendental built-ins (`std::sin`, `std::log`, `std::pow`, ...)
  operate on IEEE doubles and have no exact counterpart on `ℚ`; they are
  taken as parameters (`Funs`).  Every theorem below is independent of their
  values (the claims are about dispatch, evaluation order and errors).
* C++ leaves the evaluation order of the two operands of `/` and of the two
  arguments of a function call unsequenced.  The embedding fixes the
  left-to-right source-text order of `scalc.cpp` (so for the two-argument
  `log`, `arguments[1]` is evaluated before `arguments[0]`, exactly as the
  operands of `/` appear in the source line
  `return std::log(arguments[1]->evaluate(..)) / std::log(arguments[0]->evaluate(..));`).
* The lazy lexer (`Lexer::getNextToken`) is modelled statefully: a token
  plus the remaining character list.  The parser's fuel argument is only a
  termination device; `fuelFor` is always large enough, and all general
  theorems quantify over the fuel.
* The driver `process` counts recursion depth upward and returns at once
  when `MAX_DEPTH < depth`.  The embedding passes the remaining allowance
  `gas = MAX_DEPTH + 1 - depth` downward, which makes the recursion
  structural; `process` converts between the two views.  Console output is
  not modelled (it carries no data used later).
-/

namespace Scalc

/-- `enum class TokenType` of `scalc.cpp` (line 14). -/
inductive TokenType where
  | NUMBER
  | IDENTIFIER
  | PLUS
  | MINUS
  | MULTIPLY
  | DIVIDE
  | POW
  | LPAREN
  | RPAREN
  | EQUAL
  | COMMA
  | END
deriving DecidableEq

/-- `struct Token` (line 29); `value` defaults to `""`. -/
structure Token where
  type : TokenType
  value : String
deriving DecidableEq

/-- C `isspace` in the default locale (space, \t, \n, \v, \f, \r). -/
def isSpaceChar (c : Char) : Bool :=
  c == ' ' || c == '\t' || c == '\n' || c == '\x0b' || c == '\x0c' || c == '\r'

/-- the character class scanned into a `NUMBER` token: `isdigit(c) || c == '.'`. -/
def isNumChar (c : Char) : Bool :=
  c.isDigit || c == '.'

/-- the character class continuing an `IDENTIFIER`: `isalnum(c) || c == '_'`. -/
def isIdentChar (c : Char) : Bool :=
  c.isAlphanum || c == '_'

/-- `Lexer::getNextToken` (line 40): skip whitespace, scan a number or an
identifier run, else map one punctuation character to its token; any other
character throws `"Unexpected character: <c>"`.  The cursor is modelled by
returning the remaining characters. -/
def getNextToken (input : List Char) : Except String (Token × List Char) :=
  match input.dropWhile isSpaceChar with
  | [] => .ok (⟨.END, ""⟩, [])
  | c :: rest =>
    if isNumChar c then
      .ok (⟨.NUMBER, String.mk ((c :: rest).takeWhile isNumChar)⟩,
           (c :: rest).dropWhile isNumChar)
    else if c.isAlpha then
      .ok (⟨.IDENTIFIER, String.mk ((c :: rest).takeWhile isIdentChar)⟩,
           (c :: rest).dropWhile isIdentChar)
    else if c == '+' then .ok (⟨.PLUS, ""⟩, rest)
    else if c == '-' then .ok (⟨.MINUS, ""⟩, rest)
    else if c == '*' then .ok (⟨.MULTIPLY, ""⟩, rest)
    else if c == '/' then .ok (⟨.DIVIDE, ""⟩, rest)
    else if c == '(' then .ok (⟨.LPAREN, ""⟩, rest)
    else if c == ')' then .ok (⟨.RPAREN, ""⟩, rest)
    else if c == '=' then .ok (⟨.EQUAL, ""⟩, rest)
    else if c == ',' then .ok (⟨.COMMA, ""⟩, rest)
    else .error ("Unexpected character: " ++ String.mk [c])

/-- the parser state: the one-token lookahead `curtToken` plus the lexer's
remaining input. -/
structure PState where
  cur : Token
  rest : List Char

/-- `Parser::consume` (line 196): check the current token's type, then pull
the next token; a mismatch throws `"Unexpected token: <value>"`. -/
def consume (t : TokenType) (s : PState) : Except String PState :=
  if s.cur.type = t then
    match getNextToken s.rest with
    | .error e => .error e
    | .ok (tok, r) => .ok ⟨tok, r⟩
  else .error ("Unexpected token: " ++ s.cur.value)

/-- the AST node variants of `scalc.cpp` (lines 83–191). -/
inductive ASTNode where
  | NumberNode (value : ℚ)
  | VariableNode (name : String)
  | AssignmentNode (name : String) (value : ASTNode)
  | FunctionCallNode (functionName : String) (arguments : List ASTNode)
  | UnaryOpNode (op : TokenType) (operand : ASTNode)
  | BinaryOpNode (op : TokenType) (left : ASTNode) (right : ASTNode)

/-- the numeric value of a run of decimal digits. -/
def digitsToNat (ds : List Char) : ℕ :=
  ds.foldl (fun acc c => 10 * acc + (c.toNat - 48)) 0

/-- `std::stod` restricted to the only strings the parser feeds it (a
`NUMBER` token's text, i.e. a nonempty run of digits and dots): the longest
valid prefix `digits [ . digits ]` is converted, and a string with no valid
prefix (such as `"."`) throws `std::invalid_argument` (modelled with the
libstdc++ message `"stod"`).  The conversion is exact over `ℚ`. -/
def stod (s : String) : Except String ℚ :=
  let cs := s.data
  let intDigits := cs.takeWhile Char.isDigit
  let rest := cs.dropWhile Char.isDigit
  let fracDigits :=
    match rest with
    | '.' :: r => r.takeWhile Char.isDigit
    | _ => []
  if intDigits.isEmpty && fracDigits.isEmpty then
    .error "stod"
  else
    .ok ((digitsToNat intDigits : ℚ) + (digitsToNat fracDigits : ℚ) / (10 : ℚ) ^ fracDigits.length)

mutual

/-- `Parser::parseExpression` (line 202): a term followed by a
left-associative `+`/`-` loop (the loop is `exprLoop`). -/
def parseExpression : ℕ → PState → Except String (ASTNode × PState)
  | 0, _ => .error "Parser fuel exhausted"
  | f + 1, s =>
    match parseTerm f s with
    | .error e => .error e
    | .ok (node, s₁) => exprLoop f node s₁
termination_by structural f => f

/-- the `while` loop of `parseExpression`. -/
def exprLoop : ℕ → ASTNode → PState → Except String (ASTNode × PState)
  | 0, _, _ => .error "Parser fuel exhausted"
  | f + 1, node, s =>
    if s.cur.type = .PLUS ∨ s.cur.type = .MINUS then
      match consume s.cur.type s with
      | .error e => .error e
      | .ok s₁ =>
        match parseTerm f s₁ with
        | .error e => .error e
        | .ok (rhs, s₂) => exprLoop f (.BinaryOpNode s.cur.type node rhs) s₂
    else .ok (node, s)
termination_by structural f _ _ => f

/-- `Parser::parseTerm` (line 211): a factor followed by a left-associative
`*`/`/` loop (the loop is `termLoop`). -/
def parseTerm : ℕ → PState → Except String (ASTNode × PState)
  | 0, _ => .error "Parser fuel exhausted"
  | f + 1, s =>
    match parseFactor f s with
    | .error e => .error e
    | .ok (node, s₁) => termLoop f node s₁
termination_by structural f => f

/-- the `while` loop of `parseTerm`. -/
def termLoop : ℕ → ASTNode → PState → Except String (ASTNode × PState)
  | 0, _, _ => .error "Parser fuel exhausted"
  | f + 1, node, s =>
    if s.cur.type = .MULTIPLY ∨ s.cur.type = .DIVIDE then
      match consume s.cur.type s with
      | .error e => .error e
      | .ok s₁ =>
        match parseFactor f s₁ with
        | .error e => .error e
        | .ok (rhs, s₂) => termLoop f (.BinaryOpNode s.cur.type node rhs) s₂
    else .ok (node, s)
termination_by structural f _ _ => f

/-- `Parser::parseFactor` (line 220): unary minus, number literal
(converted by `stod` before consuming, as in the source), identifier
(function call if `(` follows, assignment if `=` follows, else a variable),
or a parenthesised expression; anything else throws. -/
def parseFactor : ℕ → PState → Except String (ASTNode × PState)
  | 0, _ => .error "Parser fuel exhausted"
  | f + 1, s =>
    match s.cur.type with
    | .MINUS =>
      match consume .MINUS s with
      | .error e => .error e
      | .ok s₁ =>
        match parseFactor f s₁ with
        | .error e => .error e
        | .ok (n, s₂) => .ok (.UnaryOpNode .MINUS n, s₂)
    | .NUMBER =>
      match stod s.cur.value with
      | .error e => .error e
      | .ok v =>
        match consume .NUMBER s with
        | .error e => .error e
        | .ok s₁ => .ok (.NumberNode v, s₁)
    | .IDENTIFIER =>
      match consume .IDENTIFIER s with
      | .error e => .error e
      | .ok s₁ =>
        match s₁.cur.type with
        | .LPAREN => parseFunctionCall f s.cur.value s₁
        | .EQUAL =>
          match consume .EQUAL s₁ with
          | .error e => .error e
          | .ok s₂ =>
            match parseExpression f s₂ with
            | .error e => .error e
            | .ok (n, s₃) => .ok (.AssignmentNode s.cur.value n, s₃)
        | _ => .ok (.VariableNode s.cur.value, s₁)
    | .LPAREN =>
      match consume .LPAREN s with
      | .error e => .error e
      | .ok s₁ =>
        match parseExpression f s₁ with
        | .error e => .error e
        | .ok (n, s₂) =>
          match consume .RPAREN s₂ with
          | .error e => .error e
          | .ok s₃ => .ok (n, s₃)
    | _ => .error ("Unexpected token: " ++ s.cur.value)
termination_by structural f => f

/-- `Parser::parseFunctionCall` (line 250): `(`, then a comma-separated
list of expressions unless `)` comes first, then `)`. -/
def parseFunctionCall : ℕ → String → PState → Except String (ASTNode × PState)
  | 0, _, _ => .error "Parser fuel exhausted"
  | f + 1, funcName, s =>
    match consume .LPAREN s with
    | .error e => .error e
    | .ok s₁ =>
      match s₁.cur.type with
      | .RPAREN =>
        match consume .RPAREN s₁ with
        | .error e => .error e
        | .ok s₂ => .ok (.FunctionCallNode funcName [], s₂)
      | _ =>
        match argsLoop f [] s₁ with
        | .error e => .error e
        | .ok (args, s₂) =>
          match consume .RPAREN s₂ with
          | .error e => .error e
          | .ok s₃ => .ok (.FunctionCallNode funcName args, s₃)
termination_by structural f _ _ => f

/-- the `do … while` argument loop of `parseFunctionCall`. -/
def argsLoop : ℕ → List ASTNode → PState → Except String (List ASTNode × PState)
  | 0, _, _ => .error "Parser fuel exhausted"
  | f + 1, acc, s =>
    match parseExpression f s with
    | .error e => .error e
    | .ok (a, s₁) =>
      match s₁.cur.type with
      | .COMMA =>
        match consume .COMMA s₁ with
        | .error e => .error e
        | .ok s₂ => argsLoop f (acc ++ [a]) s₂
      | _ => .ok (acc ++ [a], s₁)
termination_by structural f _ _ => f

end

/-- the real-valued standard-library functions the evaluator dispatches to.
They act on IEEE doubles in the source and are exactly representable over
`ℚ` for no interesting inputs, so they are parameters of the semantics; no
theorem depends on their values. -/
structure Funs where
  sin : ℚ → ℚ
  cos : ℚ → ℚ
  tan : ℚ → ℚ
  asin : ℚ → ℚ
  acos : ℚ → ℚ
  atan : ℚ → ℚ
  sinh : ℚ → ℚ
  cosh : ℚ → ℚ
  tanh : ℚ → ℚ
  asinh : ℚ → ℚ
  acosh : ℚ → ℚ
  atanh : ℚ → ℚ
  sqrt : ℚ → ℚ
  cbrt : ℚ → ℚ
  exp : ℚ → ℚ
  log : ℚ → ℚ
  log10 : ℚ → ℚ
  log2 : ℚ → ℚ
  abs : ℚ → ℚ
  pow : ℚ → ℚ → ℚ
  fmod : ℚ → ℚ → ℚ

/-- a concrete instantiation of `Funs` used for closed test evaluations;
every theorem evaluated at it is insensitive to the choice. -/
def defaultFuns : Funs where
  sin := fun _ => 0
  cos := fun _ => 0
  tan := fun _ => 0
  asin := fun _ => 0
  acos := fun _ => 0
  atan := fun _ => 0
  sinh := fun _ => 0
  cosh := fun _ => 0
  tanh := fun _ => 0
  asinh := fun _ => 0
  acosh := fun _ => 0
  atanh := fun _ => 0
  sqrt := fun _ => 0
  cbrt := fun _ => 0
  exp := fun _ => 0
  log := fun _ => 0
  log10 := fun _ => 0
  log2 := fun _ => 0
  abs := fun _ => 0
  pow := fun _ _ => 0
  fmod := fun _ _ => 0

/-- the variable environment `std::unordered_map<std::string, double>`,
modelled as an association list (first binding wins on lookup; `updateVar`
overwrites in place or appends, mirroring `vars[name] = val`). -/
abbrev Env := List (String × ℚ)

/-- `vars.find(name)` / `vars[name]` on the read side. -/
def lookupVar : Env → String → Option ℚ
  | [], _ => none
  | (k, v) :: r, name => if k = name then some v else lookupVar r name

/-- `vars[name] = val`: overwrite the existing binding or create it. -/
def updateVar : Env → String → ℚ → Env
  | [], name, val => [(name, val)]
  | (k, v) :: r, name, val =>
    if k = name then (k, val) :: r else (k, v) :: updateVar r name val

/-- the virtual `evaluate` methods (lines 91–190), fused into one function
on the node variants.  Errors carry the map as mutated so far (the C++ map
is mutated in place, so assignments already committed survive a throw). -/
def evaluate (F : Funs) : ASTNode → Env → Except (String × Env) (ℚ × Env)
  | .NumberNode v, env => .ok (v, env)
  | .VariableNode name, env =>
    match lookupVar env name with
    | none => .error ("Undefined variable: " ++ name, env)
    | some v => .ok (v, env)
  | .AssignmentNode name e, env =>
    match evaluate F e env with
    | .error er => .error er
    | .ok (v, env₁) => .ok (v, updateVar env₁ name v)
  | .FunctionCallNode name args, env =>
    match args with
    | [a] =>
      if name = "sin" then (evaluate F a env).map fun (v, e) => (F.sin v, e)
      else if name = "cos" then (evaluate F a env).map fun (v, e) => (F.cos v, e)
      else if name = "tan" then (evaluate F a env).map fun (v, e) => (F.tan v, e)
      else if name = "asin" then (evaluate F a env).map fun (v, e) => (F.asin v, e)
      else if name = "acos" then (evaluate F a env).map fun (v, e) => (F.acos v, e)
      else if name = "atan" then (evaluate F a env).map fun (v, e) => (F.atan v, e)
      else if name = "sinh" then (evaluate F a env).map fun (v, e) => (F.sinh v, e)
      else if name = "cosh" then (evaluate F a env).map fun (v, e) => (F.cosh v, e)
      else if name = "tanh" then (evaluate F a env).map fun (v, e) => (F.tanh v, e)
      else if name = "asinh" then (evaluate F a env).map fun (v, e) => (F.asinh v, e)
      else if name = "acosh" then (evaluate F a env).map fun (v, e) => (F.acosh v, e)
      else if name = "atanh" then (evaluate F a env).map fun (v, e) => (F.atanh v, e)
      else if name = "sqrt" then (evaluate F a env).map fun (v, e) => (F.sqrt v, e)
      else if name = "cbrt" then (evaluate F a env).map fun (v, e) => (F.cbrt v, e)
      else if name = "exp" then (evaluate F a env).map fun (v, e) => (F.exp v, e)
      else if name = "ln" then (evaluate F a env).map fun (v, e) => (F.log v, e)
      else if name = "log10" then (evaluate F a env).map fun (v, e) => (F.log10 v, e)
      else if name = "log2" then (evaluate F a env).map fun (v, e) => (F.log2 v, e)
      else if name = "abs" then (evaluate F a env).map fun (v, e) => (F.abs v, e)
      else .error ("Unknown function: " ++ name, env)
    | [a, b] =>
      if name = "log" then
        -- source line 147 evaluates `arguments[1]` textually before
        -- `arguments[0]` (left operand of `/` first)
        match evaluate F b env with
        | .error er => .error er
        | .ok (x, env₁) =>
          match evaluate F a env₁ with
          | .error er => .error er
          | .ok (base, env₂) => .ok (F.log x / F.log base, env₂)
      else if name = "pow" then
        match evaluate F a env with
        | .error er => .error er
        | .ok (x, env₁) =>
          match evaluate F b env₁ with
          | .error er => .error er
          | .ok (y, env₂) => .ok (F.pow x y, env₂)
      else if name = "mod" then
        match evaluate F a env with
        | .error er => .error er
        | .ok (x, env₁) =>
          match evaluate F b env₁ with
          | .error er => .error er
          | .ok (y, env₂) => .ok (F.fmod x y, env₂)
      else .error ("Unknown function: " ++ name, env)
    | _ => .error ("Unknown function: " ++ name, env)
  | .UnaryOpNode op e, env =>
    match evaluate F e env with
    | .error er => .error er
    | .ok (v, env₁) =>
      match op with
      | .MINUS => .ok (-v, env₁)
      | _ => .error ("Invalid unary operator", env₁)
  | .BinaryOpNode op l r, env =>
    match evaluate F l env with
    | .error er => .error er
    | .ok (lv, env₁) =>
      match evaluate F r env₁ with
      | .error er => .error er
      | .ok (rv, env₂) =>
        match op with
        | .PLUS => .ok (lv + rv, env₂)
        | .MINUS => .ok (lv - rv, env₂)
        | .MULTIPLY => .ok (lv * rv, env₂)
        | .DIVIDE => .ok (lv / rv, env₂)
        | _ => .error ("Invalid operator", env₂)

/-- fuel amply covering every parse of `line` (each parser step either
consumes a character or descends at most four levels per token). -/
def fuelFor (line : String) : ℕ := line.length * 4 + 16

/-- `calculate` (line 321): construct the parser (which already lexes the
first token), parse one expression — trailing tokens are ignored, and input
beyond the last token the parser pulled is never lexed — and evaluate it.
Parse-phase errors leave the vars untouched. -/
def calculate (F : Funs) (line : String) (vars : Env) :
    Except (String × Env) (ℚ × Env) :=
  match getNextToken line.data with
  | .error e => .error (e, vars)
  | .ok (t, r) =>
    match parseExpression (fuelFor line) ⟨t, r⟩ with
    | .error e => .error (e, vars)
    | .ok (node, _) => evaluate F node vars

/-- the character loop of `commandsDivide` (lines 337–381), with the three
state flags `in_quotes`, `quote_char`, `escape` and the accumulators. -/
def cdLoop : List Char → List String → String → Bool → Char → Bool →
    Except String (List String)
  | [], terms, term, inQuotes, _quoteChar, _escape =>
    if inQuotes then .error "Unclosed quote in input string."
    else if term ≠ "" then .ok (terms ++ [term])
    else .ok terms
  | c :: rest, terms, term, inQuotes, quoteChar, escape =>
    if escape then
      cdLoop rest terms (term.push c) inQuotes quoteChar false
    else if c == '\\' then
      cdLoop rest terms term inQuotes quoteChar true
    else if c == '"' || c == '\x27' then
      if inQuotes then
        if c == quoteChar then cdLoop rest terms term false '\x00' false
        else cdLoop rest terms (term.push c) inQuotes quoteChar false
      else cdLoop rest terms term true c false
    else if c == ' ' && !inQuotes then
      if term ≠ "" then cdLoop rest (terms ++ [term]) "" inQuotes quoteChar false
      else cdLoop rest terms term inQuotes quoteChar false
    else
      cdLoop rest terms (term.push c) inQuotes quoteChar false

/-- `commandsDivide` (line 329): empty or non-`:` input yields no terms;
otherwise the remainder after `:` is split by `cdLoop` starting with empty
accumulators, `in_quotes = false`, `quote_char = '\0'`, `escape = false`. -/
def commandsDivide (input : String) : Except String (List String) :=
  match input.data with
  | [] => .ok []
  | c :: rest =>
    if c ≠ ':' then .ok []
    else cdLoop rest [] "" false '\x00' false

/-- `#define MAX_DEPTH 128` (line 12). -/
def MAX_DEPTH : ℕ := 128

/-- the `for` loop over `terms[1..]` of the `:file` dispatch (lines
401–407): open each path via the modelled file system `fs`; a path that
fails to open is reported (output not modelled) and skipped; an open file
is fed to the driver one level deeper (`recur`), whose uncaught errors
propagate. -/
def runPaths (recur : List String → Env → Except String Env)
    (fs : String → Option (List String)) :
    List String → Env → Except String Env
  | [], vars => .ok vars
  | p :: ps, vars =>
    match fs p with
    | none => runPaths recur fs ps vars
    | some ls =>
      match recur ls vars with
      | .error e => .error e
      | .ok vars₁ => runPaths recur fs ps vars₁

/-- the `do … while(not opts.once || not write)` body of `process` (lines
387–418) over the finite list of lines of one stream.  Empty lines are
skipped; `:`-lines go through `commandsDivide` (whose errors are NOT inside
any try/catch and therefore escape) and then dispatch on the first term
(`e`/`exit` breaks, `h`/`help` only prints, `f`/`file` sources each path
via `runPaths`, anything else is ignored); every other line is evaluated as
`"Ans = " + line` inside the try/catch, so `calculate` errors are reported
(output not modelled) and the mutated-so-far vars are kept.  After
each non-breaking iteration the loop condition stops the loop when
`once && write`. -/
def runLines (recur : List String → Env → Except String Env)
    (F : Funs) (fs : String → Option (List String)) (once : Bool) :
    List String → Bool → Env → Except String Env
  | [], _write, vars => .ok vars
  | line :: rest, write, vars =>
    if line = "" then
      (if once && write then .ok vars
       else runLines recur F fs once rest write vars)
    else if line.data.head? = some ':' then
      match commandsDivide line with
      | .error e => .error e
      | .ok [] =>
        (if once && write then .ok vars
         else runLines recur F fs once rest write vars)
      | .ok (t :: paths) =>
        if t = "e" || t = "exit" then .ok vars
        else if t = "f" || t = "file" then
          match runPaths recur fs paths vars with
          | .error e => .error e
          | .ok vars₁ =>
            if once && write then .ok vars₁
            else runLines recur F fs once rest write vars₁
        else
          (if once && write then .ok vars
           else runLines recur F fs once rest write vars)
    else
      let vars₁ :=
        match calculate F ("Ans = " ++ line) vars with
        | .ok r => r.2
        | .error r => r.2
      if once && write then .ok vars₁
      else runLines recur F fs once rest write vars₁

/-- `process` with the depth counter replaced by the remaining allowance
`gas = MAX_DEPTH + 1 - depth`: `gas = 0` is exactly `MAX_DEPTH < depth`,
where the C++ function returns immediately, and sourcing a file passes
`gas - 1` (the C++ passes `depth + 1`). -/
def processDepth (F : Funs) (fs : String → Option (List String)) (once : Bool) :
    ℕ → List String → Bool → Env → Except String Env
  | 0, _lines, _write, vars => .ok vars
  | gas + 1, lines, write, vars =>
    runLines (fun ls vs => processDepth F fs once gas ls false vs)
      F fs once lines write vars

/-- `process` (line 384) in its original signature: `depth` counts up from
0 and the driver returns at once when `MAX_DEPTH < depth`. -/
def process (F : Funs) (fs : String → Option (List String)) (once : Bool)
    (lines : List String) (write : Bool) (vars : Env) (depth : ℕ) :
    Except String Env :=
  processDepth F fs once (MAX_DEPTH + 1 - depth) lines write vars

/-- `main` (line 425) seeds the environment with `Ans = 0.0`. -/
def initialEnv : Env := [("Ans", 0)]

/-- a modelled file system with no files (every open fails). -/
def noFiles : String → Option (List String) := fun _ => none

/-- a modelled file system with one file `self` that sources itself. -/
def selfFs : String → Option (List String) :=
  fun p => if p = "self" then some [":file self"] else none

/-- the 18 one-argument built-in names of `FunctionCallNode::evaluate`. -/
def unaryNames : List String :=
  ["sin", "cos", "tan", "asin", "acos", "atan", "sinh", "cosh", "tanh",
   "asinh", "acosh", "atanh", "sqrt", "cbrt", "exp", "ln", "log10", "log2", "abs"]

/-- the two-argument built-in names of `FunctionCallNode::evaluate`. -/
def binaryNames : List String := ["log", "pow", "mod"]

/-- the decimal digits of a natural number, most significant first (the
rendering of a number literal used by the reference grammar below). -/
def natDigits (n : ℕ) : List Char :=
  if n < 10 then [Char.ofNat (48 + n)]
  else natDigits (n / 10) ++ [Char.ofNat (48 + n % 10)]
termination_by n
decreasing_by exact Nat.div_lt_self (by omega) (by omega)

/-- entering the parser on a character stream: `Parser`'s constructor lexes
the first token (line 201). -/
def lexInit (cs : List Char) : Except String PState :=
  match getNextToken cs with
  | .error e => .error e
  | .ok (t, r) => .ok ⟨t, r⟩

/-- the additive operators of the reference grammar (spec §4.2:
`expression → term ((+|-) term)*`). -/
inductive AddOp where
  | plus
  | minus

/-- the multiplicative operators of the reference grammar (spec §4.2:
`term → factor ((*|/) factor)*`). -/
inductive MulOp where
  | times
  | divide

/-! reference semantics, modelled from the spec (§4.2 grammar, §4.3
`BinaryOp` meaning): a variable-free arithmetic expression in the claim's
sense.  `Factor` is a number literal, a chain of unary minuses, or a
parenthesised expression ("parentheses override"); a `Term` is a factor
followed by a `*`/`/` chain; an `Expr` is a term followed by a `+`/`-`
chain.  The chain form is exactly the spec's iterated grammar, so every
valid variable-free expression is the print of such a tree. -/
mutual
inductive Factor where
  | num (n : ℕ)
  | neg (a : Factor)
  | paren (e : Expr)
inductive MulChain where
  | nil
  | cons (op : MulOp) (f : Factor) (rest : MulChain)
inductive Term where
  | mk (f : Factor) (more : MulChain)
inductive AddChain where
  | nil
  | cons (op : AddOp) (t : Term) (rest : AddChain)
inductive Expr where
  | mk (t : Term) (more : AddChain)
end

/-- the arithmetic meaning of an additive operator. -/
def AddOp.apply : AddOp → ℚ → ℚ → ℚ
  | .plus, a, b => a + b
  | .minus, a, b => a - b

/-- the arithmetic meaning of a multiplicative operator. -/
def MulOp.apply : MulOp → ℚ → ℚ → ℚ
  | .times, a, b => a * b
  | .divide, a, b => a / b

/-- the concrete character of an additive operator. -/
def AddOp.char : AddOp → Char
  | .plus => '+'
  | .minus => '-'

/-- the concrete character of a multiplicative operator. -/
def MulOp.char : MulOp → Char
  | .times => '*'
  | .divide => '/'

/-- the token type the lexer assigns to an additive operator's character. -/
def AddOp.token : AddOp → TokenType
  | .plus => .PLUS
  | .minus => .MINUS

/-- the token type the lexer assigns to a multiplicative operator's
character. -/
def MulOp.token : MulOp → TokenType
  | .times => .MULTIPLY
  | .divide => .DIVIDE

/-! direct computation, modelled from the spec: standard operator
precedence is the layering (`Factor` inside `Term` inside `Expr`), and the
binary operators are LEFT-associative because each chain folds its
accumulated value in as the left operand. -/
mutual
def Factor.denote : Factor → ℚ
  | .num n => n
  | .neg a => -Factor.denote a
  | .paren e => Expr.denote e
def MulChain.denoteFrom : ℚ → MulChain → ℚ
  | acc, .nil => acc
  | acc, .cons op f rest => MulChain.denoteFrom (MulOp.apply op acc (Factor.denote f)) rest
def Term.denote : Term → ℚ
  | .mk f more => MulChain.denoteFrom (Factor.denote f) more
def AddChain.denoteFrom : ℚ → AddChain → ℚ
  | acc, .nil => acc
  | acc, .cons op t rest => AddChain.denoteFrom (AddOp.apply op acc (Term.denote t)) rest
def Expr.denote : Expr → ℚ
  | .mk t more => AddChain.denoteFrom (Term.denote t) more
end

/-! rendering a reference expression to the character string the claim's
grammar writes it as (no redundant whitespace; parentheses exactly where
`Factor.paren` puts them). -/
mutual
def Factor.print : Factor → List Char
  | .num n => natDigits n
  | .neg a => '-' :: Factor.print a
  | .paren e => '(' :: (Expr.print e ++ [')'])
def MulChain.print : MulChain → List Char
  | .nil => []
  | .cons op f rest => MulOp.char op :: (Factor.print f ++ MulChain.print rest)
def Term.print : Term → List Char
  | .mk f more => Factor.print f ++ MulChain.print more
def AddChain.print : AddChain → List Char
  | .nil => []
  | .cons op t rest => AddOp.char op :: (Term.print t ++ AddChain.print rest)
def Expr.print : Expr → List Char
  | .mk t more => Term.print t ++ AddChain.print more
end

/-! parser fuel sufficient for each layer of the reference grammar (proved
sufficient below; `fuelFor` of the printed string always dominates it). -/
mutual
def Factor.fuel : Factor → ℕ
  | .num _ => 1
  | .neg a => Factor.fuel a + 1
  | .paren e => Expr.fuel e + 1
def MulChain.fuel : MulChain → ℕ
  | .nil => 1
  | .cons _ f rest => Factor.fuel f + MulChain.fuel rest + 1
def Term.fuel : Term → ℕ
  | .mk f more => Factor.fuel f + MulChain.fuel more + 1
def AddChain.fuel : AddChain → ℕ
  | .nil => 1
  | .cons _ t rest => Term.fuel t + AddChain.fuel rest + 1
def Expr.fuel : Expr → ℕ
  | .mk t more => Term.fuel t + AddChain.fuel more + 1
end

/-- the characters allowed to follow a printed factor: the operators and
the closing parenthesis (or end of input). -/
def FactorFollow (cs : List Char) : Prop :=
  ∀ c, cs.head? = some c → (c = '+' ∨ c = '-' ∨ c = '*' ∨ c = '/' ∨ c = ')')

/-- the characters allowed to follow a printed term: its `*`/`/` chain is
complete, so only additive operators and `)` (or end of input) remain. -/
def TermFollow (cs : List Char) : Prop :=
  ∀ c, cs.head? = some c → (c = '+' ∨ c = '-' ∨ c = ')')

/-- the characters allowed to follow a printed expression: only `)` (or
end of input). -/
def ExprFollow (cs : List Char) : Prop :=
  ∀ c, cs.head? = some c → c = ')'

/-- a node whose evaluation is pure: it yields `v` and touches neither the
environment nor the built-in table (the nodes the reference grammar
produces are all of this kind). -/
def evalPure (n : ASTNode) (v : ℚ) : Prop :=
  ∀ (F : Funs) (env : Env), evaluate F n env = .ok (v, env)

set_option maxRecDepth 16000

/-- an overwrite is visible: after `updateVar env name v`, looking up `name`
yields `v`. -/
theorem lookupVar_updateVar_self (env : Env) (name : String) (v : ℚ) :
    lookupVar (updateVar env name v) name = some v := by
  induction env with
  | nil => simp [updateVar, lookupVar]
  | cons kv r ih =>
    obtain ⟨k, w⟩ := kv
    by_cases h : k = name
    · simp [updateVar, h, lookupVar]
    · simp [updateVar, h, lookupVar, ih]

/-- when `termLoop` returns, the lookahead is no longer `*` or `/`. -/
theorem termLoop_final (f : ℕ) :
    ∀ (n : ASTNode) (s : PState) (r : ASTNode × PState),
      termLoop f n s = .ok r →
      ¬(r.2.cur.type = TokenType.MULTIPLY ∨ r.2.cur.type = TokenType.DIVIDE) := by
  induction f with
  | zero => intro n s r h; simp [termLoop] at h
  | succ f ih =>
    intro n s r h
    rw [termLoop] at h
    by_cases hc : s.cur.type = TokenType.MULTIPLY ∨ s.cur.type = TokenType.DIVIDE
    · rw [if_pos hc] at h
      rcases hcon : consume s.cur.type s with e | s₁ <;> simp only [hcon] at h
      · exact absurd h (by simp)
      · rcases hp : parseFactor f s₁ with e | ⟨rhs, s₂⟩ <;> simp only [hp] at h
        · exact absurd h (by simp)
        · exact ih _ _ _ h
    · rw [if_neg hc] at h
      injection h with h2
      subst h2
      exact hc

/-- when `parseTerm` returns, the lookahead is no longer `*` or `/`. -/
theorem parseTerm_final (f : ℕ) (s : PState) (r : ASTNode × PState)
    (h : parseTerm f s = .ok r) :
    ¬(r.2.cur.type = TokenType.MULTIPLY ∨ r.2.cur.type = TokenType.DIVIDE) := by
  cases f with
  | zero => simp [parseTerm] at h
  | succ f =>
    rw [parseTerm] at h
    rcases hp : parseFactor f s with e | ⟨node, s₁⟩ <;> simp only [hp] at h
    · exact absurd h (by simp)
    · exact termLoop_final f node s₁ r h

/-- when `exprLoop` returns, the lookahead is no longer `+` or `-`, and
unless it returned at once it is not `*`/`/` either. -/
theorem exprLoop_final (f : ℕ) :
    ∀ (n : ASTNode) (s : PState) (r : ASTNode × PState),
      exprLoop f n s = .ok r →
      ¬(r.2.cur.type = TokenType.PLUS ∨ r.2.cur.type = TokenType.MINUS) ∧
      (¬(r.2.cur.type = TokenType.MULTIPLY ∨ r.2.cur.type = TokenType.DIVIDE) ∨ r.2 = s) := by
  induction f with
  | zero => intro n s r h; simp [exprLoop] at h
  | succ f ih =>
    intro n s r h
    rw [exprLoop] at h
    by_cases hc : s.cur.type = TokenType.PLUS ∨ s.cur.type = TokenType.MINUS
    · rw [if_pos hc] at h
      rcases hcon : consume s.cur.type s with e | s₁ <;> simp only [hcon] at h
      · exact absurd h (by simp)
      · rcases hp : parseTerm f s₁ with e | ⟨m, s₂⟩ <;> simp only [hp] at h
        · exact absurd h (by simp)
        · obtain ⟨ha, hb⟩ := ih _ _ _ h
          refine ⟨ha, Or.inl ?_⟩
          rcases hb with hb | hb
          · exact hb
          · rw [hb]
            exact parseTerm_final f s₁ (m, s₂) hp
    · rw [if_neg hc] at h
      injection h with h2
      subst h2
      exact ⟨hc, Or.inr rfl⟩

/-- when `parseExpression` returns, the lookahead is none of `+ - * /`. -/
theorem parseExpression_final (f : ℕ) (s : PState) (r : ASTNode × PState)
    (h : parseExpression f s = .ok r) :
    ¬(r.2.cur.type = TokenType.PLUS ∨ r.2.cur.type = TokenType.MINUS) ∧
    ¬(r.2.cur.type = TokenType.MULTIPLY ∨ r.2.cur.type = TokenType.DIVIDE) := by
  cases f with
  | zero => simp [parseExpression] at h
  | succ f =>
    rw [parseExpression] at h
    rcases hp : parseTerm f s with e | ⟨node, s₁⟩ <;> simp only [hp] at h
    · exact absurd h (by simp)
    · obtain ⟨ha, hb⟩ := exprLoop_final f node s₁ r h
      refine ⟨ha, ?_⟩
      rcases hb with hb | hb
      · exact hb
      · rw [hb]
        exact parseTerm_final f s (node, s₁) hp

/-- `termLoop` returns at once when the lookahead is not `*`/`/`. -/
theorem termLoop_skip (f : ℕ) (n : ASTNode) (s : PState)
    (h : ¬(s.cur.type = TokenType.MULTIPLY ∨ s.cur.type = TokenType.DIVIDE)) :
    termLoop (f + 1) n s = .ok (n, s) := by
  rw [termLoop, if_neg h]

/-- `exprLoop` returns at once when the lookahead is not `+`/`-`. -/
theorem exprLoop_skip (f : ℕ) (n : ASTNode) (s : PState)
    (h : ¬(s.cur.type = TokenType.PLUS ∨ s.cur.type = TokenType.MINUS)) :
    exprLoop (f + 1) n s = .ok (n, s) := by
  rw [exprLoop, if_neg h]

/-- parsing an expression whose first tokens are `Ans =` wraps the parse of
the remainder in `AssignmentNode "Ans"`: the concrete head of every line the
driver builds (`"Ans = " + line`). -/
theorem parseExpression_ans (f : ℕ) (cs : List Char) :
    parseExpression (f + 1 + 1 + 1) ⟨⟨.IDENTIFIER, "Ans"⟩, ' ' :: '=' :: ' ' :: cs⟩ =
      match getNextToken (' ' :: cs) with
      | .error e => .error e
      | .ok (t, r) =>
        match parseExpression f ⟨t, r⟩ with
        | .error e => .error e
        | .ok (n, s₂) => .ok (.AssignmentNode "Ans" n, s₂) := by
  have hc1 : consume .IDENTIFIER ⟨⟨.IDENTIFIER, "Ans"⟩, ' ' :: '=' :: ' ' :: cs⟩ =
      .ok ⟨⟨.EQUAL, ""⟩, ' ' :: cs⟩ := rfl
  rw [parseExpression, parseTerm, parseFactor]
  simp only [hc1]
  rcases hg : getNextToken (' ' :: cs) with e | ⟨t, r⟩
  · have hc2 : consume .EQUAL ⟨⟨.EQUAL, ""⟩, ' ' :: cs⟩ = .error e := by
      simp [consume, hg]
    simp only [hc2]
  · have hc2 : consume .EQUAL ⟨⟨.EQUAL, ""⟩, ' ' :: cs⟩ = .ok ⟨t, r⟩ := by
      simp [consume, hg]
    simp only [hc2]
    rcases hpe : parseExpression f ⟨t, r⟩ with e | ⟨n, s₂⟩
    · simp only [hpe]
    · have hfin := parseExpression_final f ⟨t, r⟩ (n, s₂) hpe
      simp only [hpe, termLoop_skip _ _ _ hfin.2, exprLoop_skip _ _ _ hfin.1]

/-- every successful evaluation of a line prefixed with `"Ans = "` leaves
`Ans` bound to the produced value: the outermost node is the `Ans`
assignment, which writes last. -/
theorem calculate_ans (F : Funs) (line : String) (env env₂ : Env) (v : ℚ)
    (h : calculate F ("Ans = " ++ line) env = .ok (v, env₂)) :
    lookupVar env₂ "Ans" = some v := by
  have hdata : ("Ans = " ++ line).data = 'A' :: 'n' :: 's' :: ' ' :: '=' :: ' ' :: line.data := by
    cases line with
    | mk l => rfl
  have hlex : getNextToken ('A' :: 'n' :: 's' :: ' ' :: '=' :: ' ' :: line.data) =
      .ok (⟨.IDENTIFIER, "Ans"⟩, ' ' :: '=' :: ' ' :: line.data) := rfl
  have h6 : "Ans = ".length = 6 := rfl
  have hfuel : fuelFor ("Ans = " ++ line) = line.length * 4 + 37 + 1 + 1 + 1 := by
    rw [fuelFor, String.length_append, h6]
    ring
  rw [calculate, hdata, hlex, hfuel] at h
  simp only [parseExpression_ans] at h
  rcases hg : getNextToken (' ' :: line.data) with e | ⟨t, r⟩ <;> simp only [hg] at h
  · exact absurd h (by simp)
  · rcases hpe : parseExpression (line.length * 4 + 37) ⟨t, r⟩ with e | ⟨n, s₂⟩ <;>
      simp only [hpe] at h
    · exact absurd h (by simp)
    · rw [evaluate] at h
      rcases he : evaluate F n env with er | ⟨v₁, env₁⟩ <;> simp only [he] at h
      · exact absurd h (by simp)
      · simp only [Except.ok.injEq, Prod.mk.injEq] at h
        obtain ⟨h3, h4⟩ := h
        subst h3
        subst h4
        exact lookupVar_updateVar_self env₁ "Ans" v₁
/-- the command tokenizer's loop never emits an empty term: the two pushes
are guarded by `!term.empty()`. -/
theorem cdLoop_terms_nonempty :
    ∀ (cs : List Char) (terms : List String) (term : String) (q : Bool) (qc : Char) (esc : Bool)
      (res : List String),
      (∀ t ∈ terms, t ≠ "") →
      cdLoop cs terms term q qc esc = .ok res →
      ∀ t ∈ res, t ≠ "" := by
  intro cs
  induction cs with
  | nil =>
    intro terms term q qc esc res hin h
    rw [cdLoop] at h
    split_ifs at h with h1 h2
    · injection h with h3
      subst h3
      intro t ht
      rcases List.mem_append.mp ht with h4 | h4
      · exact hin t h4
      · simp only [List.mem_singleton] at h4
        subst h4
        exact h2
    · injection h with h3
      subst h3
      exact hin
  | cons c rest ih =>
    intro terms term q qc esc res hin h
    rw [cdLoop] at h
    split_ifs at h with h1 h2 h3 h4 h5 h6 h7
    · exact ih _ _ _ _ _ _ hin h
    · exact ih _ _ _ _ _ _ hin h
    · exact ih _ _ _ _ _ _ hin h
    · exact ih _ _ _ _ _ _ hin h
    · exact ih _ _ _ _ _ _ hin h
    · refine ih _ _ _ _ _ _ ?_ h
      intro t ht
      rcases List.mem_append.mp ht with h8 | h8
      · exact hin t h8
      · simp only [List.mem_singleton] at h8
        subst h8
        exact h7
    · exact ih _ _ _ _ _ _ hin h
    · exact ih _ _ _ _ _ _ hin h

/-- no rule of the lexer ever produces a `POW` token. -/
theorem getNextToken_no_POW :
    ∀ (cs : List Char) (t : Token) (r : List Char),
      getNextToken cs = .ok (t, r) → t.type ≠ .POW := by
  intro cs t r h
  rw [getNextToken] at h
  rcases hd : cs.dropWhile isSpaceChar with _ | ⟨c, rest⟩ <;> simp only [hd] at h
  · simp only [Except.ok.injEq, Prod.mk.injEq] at h
    obtain ⟨h2, -⟩ := h
    subst h2
    decide
  · have ok_case : ∀ (ty : TokenType) (v : String) (rs : List Char),
        (Except.ok (⟨ty, v⟩, rs) : Except String (Token × List Char)) = .ok (t, r) →
        ty ≠ .POW → t.type ≠ .POW := by
      intro ty v rs hh hne
      simp only [Except.ok.injEq, Prod.mk.injEq] at hh
      obtain ⟨h2, -⟩ := hh
      subst h2
      exact hne
    by_cases h1 : isNumChar c = true
    · rw [if_pos h1] at h
      exact ok_case _ _ _ h (by decide)
    · rw [if_neg h1] at h
      by_cases h2 : c.isAlpha = true
      · rw [if_pos h2] at h
        exact ok_case _ _ _ h (by decide)
      · rw [if_neg h2] at h
        by_cases h3 : (c == '+') = true
        · rw [if_pos h3] at h
          exact ok_case _ _ _ h (by decide)
        · rw [if_neg h3] at h
          by_cases h4 : (c == '-') = true
          · rw [if_pos h4] at h
            exact ok_case _ _ _ h (by decide)
          · rw [if_neg h4] at h
            by_cases h5 : (c == '*') = true
            · rw [if_pos h5] at h
              exact ok_case _ _ _ h (by decide)
            · rw [if_neg h5] at h
              by_cases h6 : (c == '/') = true
              · rw [if_pos h6] at h
                exact ok_case _ _ _ h (by decide)
              · rw [if_neg h6] at h
                by_cases h7 : (c == '(') = true
                · rw [if_pos h7] at h
                  exact ok_case _ _ _ h (by decide)
                · rw [if_neg h7] at h
                  by_cases h8 : (c == ')') = true
                  · rw [if_pos h8] at h
                    exact ok_case _ _ _ h (by decide)
                  · rw [if_neg h8] at h
                    by_cases h9 : (c == '=') = true
                    · rw [if_pos h9] at h
                      exact ok_case _ _ _ h (by decide)
                    · rw [if_neg h9] at h
                      by_cases h10 : (c == ',') = true
                      · rw [if_pos h10] at h
                        exact ok_case _ _ _ h (by decide)
                      · rw [if_neg h10] at h
                        exact absurd h (by simp)

/-- `takeWhile`/`dropWhile` on a list that starts with a block satisfying
`p` followed by a stopper. -/
theorem takeWhile_append_eq (p : Char → Bool) :
    ∀ (ds rest : List Char), (∀ c ∈ ds, p c = true) →
      (∀ c, rest.head? = some c → p c = false) →
      (ds ++ rest).takeWhile p = ds ∧ (ds ++ rest).dropWhile p = rest := by
  intro ds
  induction ds with
  | nil =>
    intro rest _ hr
    cases rest with
    | nil => simp
    | cons r rs =>
      have hpr := hr r rfl
      simp [List.takeWhile_cons, List.dropWhile_cons, hpr]
  | cons d ds ih =>
    intro rest hall hr
    have hd : p d = true := hall d (by simp)
    have hrec := ih rest (fun c hc => hall c (by simp [hc])) hr
    simp [List.takeWhile_cons, List.dropWhile_cons, hd, hrec.1, hrec.2]

/-- a digit character built from a digit value is a digit. -/
theorem isDigit_ofNat (d : ℕ) (h : d < 10) : (Char.ofNat (48 + d)).isDigit = true := by
  interval_cases d <;> decide

/-- the code of a digit character built from a digit value. -/
theorem toNat_ofNat_digit (d : ℕ) (h : d < 10) : (Char.ofNat (48 + d)).toNat = 48 + d := by
  interval_cases d <;> decide

/-- `natDigits` never yields the empty list. -/
theorem natDigits_ne_nil (n : ℕ) : natDigits n ≠ [] := by
  rw [natDigits]
  split_ifs <;> simp

/-- every character `natDigits` yields is a digit. -/
theorem natDigits_digits (n : ℕ) : ∀ c ∈ natDigits n, c.isDigit = true := by
  induction n using Nat.strong_induction_on with
  | _ n ih =>
    rw [natDigits]
    split_ifs with h
    · intro c hc
      simp only [List.mem_singleton] at hc
      subst hc
      exact isDigit_ofNat n h
    · intro c hc
      rcases List.mem_append.mp hc with h2 | h2
      · exact ih (n / 10) (Nat.div_lt_self (by omega) (by omega)) c h2
      · simp only [List.mem_singleton] at h2
        subst h2
        exact isDigit_ofNat (n % 10) (Nat.mod_lt n (by omega))

/-- appending one digit multiplies the accumulated value by ten. -/
theorem digitsToNat_append_singleton (xs : List Char) (c : Char) :
    digitsToNat (xs ++ [c]) = 10 * digitsToNat xs + (c.toNat - 48) := by
  simp [digitsToNat, List.foldl_append]

/-- reading back the decimal rendering of `n` yields `n`. -/
theorem digitsToNat_natDigits (n : ℕ) : digitsToNat (natDigits n) = n := by
  induction n using Nat.strong_induction_on with
  | _ n ih =>
    rw [natDigits]
    split_ifs with h
    · simp only [digitsToNat, List.foldl_cons, List.foldl_nil]
      rw [toNat_ofNat_digit n h]
      omega
    · rw [digitsToNat_append_singleton, ih (n / 10) (Nat.div_lt_self (by omega) (by omega)),
        toNat_ofNat_digit (n % 10) (Nat.mod_lt n (by omega))]
      omega

/-- `stod` on the decimal rendering of a natural number is exact. -/
theorem stod_natDigits (n : ℕ) : stod (String.mk (natDigits n)) = .ok (n : ℚ) := by
  have hTD := takeWhile_append_eq Char.isDigit (natDigits n) []
    (fun c hc => natDigits_digits n c hc) (fun c hc => by simp at hc)
  rw [List.append_nil] at hTD
  have hne : (natDigits n).isEmpty = false := by
    cases hnd : natDigits n with
    | nil => exact absurd hnd (natDigits_ne_nil n)
    | cons a l => rfl
  have hnil : digitsToNat [] = 0 := rfl
  rw [stod]
  simp only [hTD.1, hTD.2, hne]
  norm_num [digitsToNat_natDigits, hnil]

/-- a nonempty run of number characters followed by a non-number character
(or nothing) is lexed as one `NUMBER` token carrying the whole run. -/
theorem getNextToken_number_run (ds rest : List Char) (hne : ds ≠ [])
    (hall : ∀ c ∈ ds, isNumChar c = true)
    (hrest : ∀ c, rest.head? = some c → isNumChar c = false) :
    getNextToken (ds ++ rest) = .ok (⟨.NUMBER, String.mk ds⟩, rest) := by
  obtain ⟨d, ds2, rfl⟩ := List.exists_cons_of_ne_nil hne
  have hd : isNumChar d = true := hall d (by simp)
  have hspace : isSpaceChar d = false := by
    by_contra hs
    simp only [Bool.not_eq_false] at hs
    simp only [isSpaceChar, Bool.or_eq_true, beq_iff_eq] at hs
    rcases hs with ((((h | h) | h) | h) | h) | h <;> subst h <;> exact absurd hd (by decide)
  have hTD := takeWhile_append_eq isNumChar (d :: ds2) rest hall hrest
  have hT : (d :: (ds2 ++ rest)).takeWhile isNumChar = d :: ds2 := by
    rw [← List.cons_append]
    exact hTD.1
  have hD : (d :: (ds2 ++ rest)).dropWhile isNumChar = rest := by
    rw [← List.cons_append]
    exact hTD.2
  have hdrop : ((d :: ds2) ++ rest).dropWhile isSpaceChar = d :: (ds2 ++ rest) := by
    rw [List.cons_append, List.dropWhile_cons, if_neg (by simp [hspace])]
  rw [getNextToken]
  simp only [hdrop]
  rw [if_pos hd, hT, hD]

/-- inverting one lexing step of `lexInit`. -/
theorem lexInit_inv (cs : List Char) (s : PState) (h : lexInit cs = .ok s) :
    getNextToken cs = .ok (s.cur, s.rest) := by
  rw [lexInit] at h
  rcases hg : getNextToken cs with e | tr <;> simp only [hg] at h
  · exact absurd h (by simp)
  · obtain ⟨t, r⟩ := tr
    injection h with h2
    subst h2
    rfl

/-- an expression follower is also a term follower. -/
theorem termFollow_of_expr {cs : List Char} (h : ExprFollow cs) : TermFollow cs := by
  intro c hc
  exact Or.inr (Or.inr (h c hc))

/-- a term follower is also a factor follower. -/
theorem factorFollow_of_term {cs : List Char} (h : TermFollow cs) : FactorFollow cs := by
  intro c hc
  rcases h c hc with h2 | h2 | h2
  · exact Or.inl h2
  · exact Or.inr (Or.inl h2)
  · exact Or.inr (Or.inr (Or.inr (Or.inr h2)))

/-- no factor follower can continue a number run. -/
theorem factorFollow_not_num {cs : List Char} (h : FactorFollow cs) :
    ∀ c, cs.head? = some c → isNumChar c = false := by
  intro c hc
  rcases h c hc with h2 | h2 | h2 | h2 | h2 <;> subst h2 <;> decide

/-- a factor follower lexes to a first token. -/
theorem factorFollow_lex {cs : List Char} (h : FactorFollow cs) :
    ∃ s, lexInit cs = .ok s := by
  cases cs with
  | nil => exact ⟨⟨⟨.END, ""⟩, []⟩, rfl⟩
  | cons c cs =>
    rcases h c rfl with h2 | h2 | h2 | h2 | h2 <;> subst h2
    · exact ⟨⟨⟨.PLUS, ""⟩, cs⟩, rfl⟩
    · exact ⟨⟨⟨.MINUS, ""⟩, cs⟩, rfl⟩
    · exact ⟨⟨⟨.MULTIPLY, ""⟩, cs⟩, rfl⟩
    · exact ⟨⟨⟨.DIVIDE, ""⟩, cs⟩, rfl⟩
    · exact ⟨⟨⟨.RPAREN, ""⟩, cs⟩, rfl⟩

/-- a term follower lexes to a token that does not continue a `*`/`/`
chain. -/
theorem termFollow_lex {cs : List Char} (h : TermFollow cs) :
    ∃ s, lexInit cs = .ok s ∧
      ¬(s.cur.type = TokenType.MULTIPLY ∨ s.cur.type = TokenType.DIVIDE) := by
  cases cs with
  | nil => exact ⟨⟨⟨.END, ""⟩, []⟩, rfl, by simp⟩
  | cons c cs =>
    rcases h c rfl with h2 | h2 | h2 <;> subst h2
    · exact ⟨⟨⟨.PLUS, ""⟩, cs⟩, rfl, by simp⟩
    · exact ⟨⟨⟨.MINUS, ""⟩, cs⟩, rfl, by simp⟩
    · exact ⟨⟨⟨.RPAREN, ""⟩, cs⟩, rfl, by simp⟩

/-- an expression follower lexes to a token that continues no operator
chain at all. -/
theorem exprFollow_lex {cs : List Char} (h : ExprFollow cs) :
    ∃ s, lexInit cs = .ok s ∧
      ¬(s.cur.type = TokenType.PLUS ∨ s.cur.type = TokenType.MINUS) := by
  cases cs with
  | nil => exact ⟨⟨⟨.END, ""⟩, []⟩, rfl, by simp⟩
  | cons c cs =>
    have h2 := h c rfl
    subst h2
    exact ⟨⟨⟨.RPAREN, ""⟩, cs⟩, rfl, by simp⟩

/-- a printed `*`/`/` chain plus a term follower is a factor follower. -/
theorem mulChainPrint_factorFollow (m : MulChain) {cs : List Char} (h : TermFollow cs) :
    FactorFollow (MulChain.print m ++ cs) := by
  cases m with
  | nil =>
    rw [MulChain.print, List.nil_append]
    exact factorFollow_of_term h
  | cons op f rest =>
    intro c hc
    rw [MulChain.print] at hc
    simp only [List.cons_append, List.head?_cons, Option.some.injEq] at hc
    subst hc
    cases op
    · exact Or.inr (Or.inr (Or.inl rfl))
    · exact Or.inr (Or.inr (Or.inr (Or.inl rfl)))

/-- a printed `+`/`-` chain plus an expression follower is a term
follower. -/
theorem addChainPrint_termFollow (m : AddChain) {cs : List Char} (h : ExprFollow cs) :
    TermFollow (AddChain.print m ++ cs) := by
  cases m with
  | nil =>
    rw [AddChain.print, List.nil_append]
    exact termFollow_of_expr h
  | cons op t rest =>
    intro c hc
    rw [AddChain.print] at hc
    simp only [List.cons_append, List.head?_cons, Option.some.injEq] at hc
    subst hc
    cases op
    · exact Or.inl rfl
    · exact Or.inr (Or.inl rfl)

/-- a number literal evaluates purely. -/
theorem evalPure_num (q : ℚ) : evalPure (.NumberNode q) q := fun _ _ => rfl

/-- negation of a pure node evaluates purely. -/
theorem evalPure_neg {n : ASTNode} {v : ℚ} (h : evalPure n v) :
    evalPure (.UnaryOpNode .MINUS n) (-v) := by
  intro F env
  simp only [evaluate, h F env]

/-- an additive operator applied to pure operands evaluates purely, the
left operand first. -/
theorem evalPure_addOp (op : AddOp) {l r : ASTNode} {a b : ℚ}
    (hl : evalPure l a) (hr : evalPure r b) :
    evalPure (.BinaryOpNode (AddOp.token op) l r) (AddOp.apply op a b) := by
  intro F env
  cases op <;> simp only [AddOp.token, AddOp.apply, evaluate, hl F env, hr F env]

/-- a multiplicative operator applied to pure operands evaluates purely,
the left operand first. -/
theorem evalPure_mulOp (op : MulOp) {l r : ASTNode} {a b : ℚ}
    (hl : evalPure l a) (hr : evalPure r b) :
    evalPure (.BinaryOpNode (MulOp.token op) l r) (MulOp.apply op a b) := by
  intro F env
  cases op <;> simp only [MulOp.token, MulOp.apply, evaluate, hl F env, hr F env]

/-- `consume` succeeds on a matching token type and pulls the next
token. -/
theorem consume_of_type (t : TokenType) (s : PState) (s₁ : PState)
    (hcur : s.cur.type = t) (hlex : lexInit s.rest = .ok s₁) :
    consume t s = .ok s₁ := by
  rw [consume, if_pos hcur, lexInit_inv s.rest s₁ hlex]

/-- one `parseFactor` step on a number token. -/
theorem parseFactor_number (k : ℕ) (v : String) (q : ℚ) (cs : List Char) (s₁ : PState)
    (hstod : stod v = .ok q) (hlex : lexInit cs = .ok s₁) :
    parseFactor (k + 1) ⟨⟨.NUMBER, v⟩, cs⟩ = .ok (.NumberNode q, s₁) := by
  rw [parseFactor]
  simp only [hstod, consume_of_type .NUMBER ⟨⟨.NUMBER, v⟩, cs⟩ s₁ rfl hlex]

/-- one `parseFactor` step on a unary minus. -/
theorem parseFactor_minus (k : ℕ) (v : String) (cs : List Char) (s₁ : PState)
    (n : ASTNode) (s₂ : PState)
    (hlex : lexInit cs = .ok s₁) (hp : parseFactor k s₁ = .ok (n, s₂)) :
    parseFactor (k + 1) ⟨⟨.MINUS, v⟩, cs⟩ = .ok (.UnaryOpNode .MINUS n, s₂) := by
  rw [parseFactor]
  simp only [consume_of_type .MINUS ⟨⟨.MINUS, v⟩, cs⟩ s₁ rfl hlex, hp]

/-- one `parseFactor` step on a parenthesised expression. -/
theorem parseFactor_lparen (k : ℕ) (v : String) (cs : List Char) (s₁ : PState)
    (n : ASTNode) (s₂ s₃ : PState)
    (hlex : lexInit cs = .ok s₁) (hp : parseExpression k s₁ = .ok (n, s₂))
    (hcur : s₂.cur.type = .RPAREN) (hlex2 : lexInit s₂.rest = .ok s₃) :
    parseFactor (k + 1) ⟨⟨.LPAREN, v⟩, cs⟩ = .ok (n, s₃) := by
  rw [parseFactor]
  simp only [consume_of_type .LPAREN ⟨⟨.LPAREN, v⟩, cs⟩ s₁ rfl hlex, hp,
    consume_of_type .RPAREN s₂ s₃ hcur hlex2]

/-- one iteration of `termLoop` on a `*`/`/` token. -/
theorem termLoop_step (k : ℕ) (node rhs : ASTNode) (s s₁ s₂ : PState) (r : ASTNode × PState)
    (hcur : s.cur.type = TokenType.MULTIPLY ∨ s.cur.type = TokenType.DIVIDE)
    (hlex : lexInit s.rest = .ok s₁)
    (hf : parseFactor k s₁ = .ok (rhs, s₂))
    (hloop : termLoop k (.BinaryOpNode s.cur.type node rhs) s₂ = .ok r) :
    termLoop (k + 1) node s = .ok r := by
  rw [termLoop, if_pos hcur]
  simp only [consume_of_type s.cur.type s s₁ rfl hlex, hf]
  exact hloop

/-- one iteration of `exprLoop` on a `+`/`-` token. -/
theorem exprLoop_step (k : ℕ) (node rhs : ASTNode) (s s₁ s₂ : PState) (r : ASTNode × PState)
    (hcur : s.cur.type = TokenType.PLUS ∨ s.cur.type = TokenType.MINUS)
    (hlex : lexInit s.rest = .ok s₁)
    (ht : parseTerm k s₁ = .ok (rhs, s₂))
    (hloop : exprLoop k (.BinaryOpNode s.cur.type node rhs) s₂ = .ok r) :
    exprLoop (k + 1) node s = .ok r := by
  rw [exprLoop, if_pos hcur]
  simp only [consume_of_type s.cur.type s s₁ rfl hlex, ht]
  exact hloop

/-- assembling `parseTerm` from its factor and its loop. -/
theorem parseTerm_step (k : ℕ) (s : PState) (node : ASTNode) (s₁ : PState) (r : ASTNode × PState)
    (hf : parseFactor k s = .ok (node, s₁)) (hloop : termLoop k node s₁ = .ok r) :
    parseTerm (k + 1) s = .ok r := by
  rw [parseTerm]
  simp only [hf]
  exact hloop

/-- assembling `parseExpression` from its term and its loop. -/
theorem parseExpression_step (k : ℕ) (s : PState) (node : ASTNode) (s₁ : PState)
    (r : ASTNode × PState)
    (ht : parseTerm k s = .ok (node, s₁)) (hloop : exprLoop k node s₁ = .ok r) :
    parseExpression (k + 1) s = .ok r := by
  rw [parseExpression]
  simp only [ht]
  exact hloop

mutual

/-- parsing the printed form of a reference factor: the parser consumes
exactly it, leaves the lookahead on the follower, and produces a pure node
denoting its direct value. -/
theorem parse_print_factor : ∀ (a : Factor) (k : ℕ) (rest : List Char), FactorFollow rest →
    ∃ (node : ASTNode) (s₀ s₁ : PState),
      lexInit (Factor.print a ++ rest) = .ok s₀ ∧
      lexInit rest = .ok s₁ ∧
      parseFactor (Factor.fuel a + k) s₀ = .ok (node, s₁) ∧
      evalPure node (Factor.denote a)
  | .num n, k, rest, hf => by
    obtain ⟨s₁, hs₁⟩ := factorFollow_lex hf
    have hlexnum : lexInit (Factor.print (.num n) ++ rest) =
        .ok ⟨⟨.NUMBER, String.mk (natDigits n)⟩, rest⟩ := by
      rw [Factor.print, lexInit, getNextToken_number_run (natDigits n) rest (natDigits_ne_nil n)
        (fun c hc => by simp [isNumChar, natDigits_digits n c hc])
        (factorFollow_not_num hf)]
    refine ⟨.NumberNode (n : ℚ), _, s₁, hlexnum, hs₁, ?_, ?_⟩
    · rw [show Factor.fuel (.num n) + k = k + 1 from by rw [Factor.fuel]; omega]
      exact parseFactor_number k _ _ rest s₁ (stod_natDigits n) hs₁
    · rw [Factor.denote]
      exact evalPure_num (n : ℚ)
  | .neg a, k, rest, hf => by
    obtain ⟨node, s₀, s₁, h0, h1, hp, he⟩ := parse_print_factor a k rest hf
    refine ⟨.UnaryOpNode .MINUS node, ⟨⟨.MINUS, ""⟩, Factor.print a ++ rest⟩, s₁, ?_, h1, ?_, ?_⟩
    · rw [Factor.print]
      rfl
    · rw [show Factor.fuel (.neg a) + k = (Factor.fuel a + k) + 1 from by rw [Factor.fuel]; omega]
      exact parseFactor_minus (Factor.fuel a + k) "" (Factor.print a ++ rest) s₀ node s₁ h0 hp
    · rw [Factor.denote]
      exact evalPure_neg he
  | .paren e, k, rest, hf => by
    have hrp : ExprFollow (')' :: rest) := by
      intro c hc
      simp only [List.head?_cons, Option.some.injEq] at hc
      exact hc.symm
    obtain ⟨node, s₀, s₁, h0, h1, hp, he⟩ := parse_print_expr e k (')' :: rest) hrp
    have hs₁ : s₁ = ⟨⟨.RPAREN, ""⟩, rest⟩ := by
      rw [show lexInit (')' :: rest) = .ok ⟨⟨.RPAREN, ""⟩, rest⟩ from rfl] at h1
      injection h1 with h2
      exact h2.symm
    obtain ⟨s₂, hs₂⟩ := factorFollow_lex hf
    refine ⟨node, ⟨⟨.LPAREN, ""⟩, Expr.print e ++ (')' :: rest)⟩, s₂, ?_, hs₂, ?_, ?_⟩
    · rw [Factor.print, show ('(' :: (Expr.print e ++ [')'])) ++ rest
            = '(' :: (Expr.print e ++ (')' :: rest)) from by simp]
      rfl
    · rw [show Factor.fuel (.paren e) + k = (Expr.fuel e + k) + 1 from by rw [Factor.fuel]; omega]
      refine parseFactor_lparen (Expr.fuel e + k) "" _ s₀ node s₁ s₂ h0 hp ?_ ?_
      · rw [hs₁]
      · rw [hs₁]
        exact hs₂
    · rw [Factor.denote]
      exact he

/-- running `termLoop` over a printed `*`/`/` chain accumulates
left-associatively from the already-parsed node. -/
theorem parse_print_mulChain : ∀ (m : MulChain) (k : ℕ) (n₀ : ASTNode) (v₀ : ℚ)
    (rest : List Char), TermFollow rest → evalPure n₀ v₀ →
    ∃ (node : ASTNode) (s₀ s₁ : PState),
      lexInit (MulChain.print m ++ rest) = .ok s₀ ∧
      lexInit rest = .ok s₁ ∧
      termLoop (MulChain.fuel m + k) n₀ s₀ = .ok (node, s₁) ∧
      evalPure node (MulChain.denoteFrom v₀ m)
  | .nil, k, n₀, v₀, rest, hf, hpure => by
    obtain ⟨s, hs, hcur⟩ := termFollow_lex hf
    refine ⟨n₀, s, s, ?_, hs, ?_, ?_⟩
    · rw [MulChain.print]
      exact hs
    · rw [show MulChain.fuel .nil + k = k + 1 from by rw [MulChain.fuel]; omega]
      exact termLoop_skip k n₀ s hcur
    · rw [MulChain.denoteFrom]
      exact hpure
  | .cons op f m, k, n₀, v₀, rest, hf, hpure => by
    have hff : FactorFollow (MulChain.print m ++ rest) := mulChainPrint_factorFollow m hf
    obtain ⟨nf, sf0, sf1, hf0, hf1, hpf, hef⟩ :=
      parse_print_factor f (MulChain.fuel m + k) (MulChain.print m ++ rest) hff
    obtain ⟨node, sm0, s₁, hm0, h1, hloop, he⟩ := parse_print_mulChain m (Factor.fuel f + k)
      (.BinaryOpNode (MulOp.token op) n₀ nf) (MulOp.apply op v₀ (Factor.denote f)) rest hf
      (evalPure_mulOp op hpure hef)
    have hseq : sm0 = sf1 := by
      rw [hf1] at hm0
      injection hm0 with h2
      exact h2.symm
    refine ⟨node, ⟨⟨MulOp.token op, ""⟩, Factor.print f ++ (MulChain.print m ++ rest)⟩, s₁,
      ?_, h1, ?_, ?_⟩
    · rw [MulChain.print, show (MulOp.char op :: (Factor.print f ++ MulChain.print m)) ++ rest
            = MulOp.char op :: (Factor.print f ++ (MulChain.print m ++ rest)) from by simp]
      cases op <;> rfl
    · rw [show MulChain.fuel (.cons op f m) + k
            = (Factor.fuel f + (MulChain.fuel m + k)) + 1 from by rw [MulChain.fuel]; omega]
      refine termLoop_step (Factor.fuel f + (MulChain.fuel m + k)) n₀ nf _ sf0 sf1 _ ?_ hf0 hpf ?_
      · cases op <;> simp [MulOp.token]
      · rw [show Factor.fuel f + (MulChain.fuel m + k)
              = MulChain.fuel m + (Factor.fuel f + k) from by omega]
        rw [hseq] at hloop
        exact hloop
    · rw [MulChain.denoteFrom]
      exact he

/-- parsing the printed form of a reference term. -/
theorem parse_print_term : ∀ (t : Term) (k : ℕ) (rest : List Char), TermFollow rest →
    ∃ (node : ASTNode) (s₀ s₁ : PState),
      lexInit (Term.print t ++ rest) = .ok s₀ ∧
      lexInit rest = .ok s₁ ∧
      parseTerm (Term.fuel t + k) s₀ = .ok (node, s₁) ∧
      evalPure node (Term.denote t)
  | .mk f more, k, rest, hf => by
    have hff : FactorFollow (MulChain.print more ++ rest) := mulChainPrint_factorFollow more hf
    obtain ⟨nf, s₀, sf1, h0, hf1, hpf, hef⟩ :=
      parse_print_factor f (MulChain.fuel more + k) (MulChain.print more ++ rest) hff
    obtain ⟨node, sm0, s₁, hm0, h1, hloop, he⟩ :=
      parse_print_mulChain more (Factor.fuel f + k) nf (Factor.denote f) rest hf hef
    have hseq : sm0 = sf1 := by
      rw [hf1] at hm0
      injection hm0 with h2
      exact h2.symm
    refine ⟨node, s₀, s₁, ?_, h1, ?_, ?_⟩
    · rw [Term.print, List.append_assoc]
      exact h0
    · rw [show Term.fuel (.mk f more) + k
            = (Factor.fuel f + (MulChain.fuel more + k)) + 1 from by rw [Term.fuel]; omega]
      refine parseTerm_step (Factor.fuel f + (MulChain.fuel more + k)) s₀ nf sf1 _ hpf ?_
      rw [show Factor.fuel f + (MulChain.fuel more + k)
            = MulChain.fuel more + (Factor.fuel f + k) from by omega]
      rw [hseq] at hloop
      exact hloop
    · rw [Term.denote]
      exact he

/-- running `exprLoop` over a printed `+`/`-` chain accumulates
left-associatively from the already-parsed node. -/
theorem parse_print_addChain : ∀ (m : AddChain) (k : ℕ) (n₀ : ASTNode) (v₀ : ℚ)
    (rest : List Char), ExprFollow rest → evalPure n₀ v₀ →
    ∃ (node : ASTNode) (s₀ s₁ : PState),
      lexInit (AddChain.print m ++ rest) = .ok s₀ ∧
      lexInit rest = .ok s₁ ∧
      exprLoop (AddChain.fuel m + k) n₀ s₀ = .ok (node, s₁) ∧
      evalPure node (AddChain.denoteFrom v₀ m)
  | .nil, k, n₀, v₀, rest, hf, hpure => by
    obtain ⟨s, hs, hcur⟩ := exprFollow_lex hf
    refine ⟨n₀, s, s, ?_, hs, ?_, ?_⟩
    · rw [AddChain.print]
      exact hs
    · rw [show AddChain.fuel .nil + k = k + 1 from by rw [AddChain.fuel]; omega]
      exact exprLoop_skip k n₀ s hcur
    · rw [AddChain.denoteFrom]
      exact hpure
  | .cons op t m, k, n₀, v₀, rest, hf, hpure => by
    have htf : TermFollow (AddChain.print m ++ rest) := addChainPrint_termFollow m hf
    obtain ⟨nt, st0, st1, ht0, ht1, hpt, het⟩ :=
      parse_print_term t (AddChain.fuel m + k) (AddChain.print m ++ rest) htf
    obtain ⟨node, sm0, s₁, hm0, h1, hloop, he⟩ := parse_print_addChain m (Term.fuel t + k)
      (.BinaryOpNode (AddOp.token op) n₀ nt) (AddOp.apply op v₀ (Term.denote t)) rest hf
      (evalPure_addOp op hpure het)
    have hseq : sm0 = st1 := by
      rw [ht1] at hm0
      injection hm0 with h2
      exact h2.symm
    refine ⟨node, ⟨⟨AddOp.token op, ""⟩, Term.print t ++ (AddChain.print m ++ rest)⟩, s₁,
      ?_, h1, ?_, ?_⟩
    · rw [AddChain.print, show (AddOp.char op :: (Term.print t ++ AddChain.print m)) ++ rest
            = AddOp.char op :: (Term.print t ++ (AddChain.print m ++ rest)) from by simp]
      cases op <;> rfl
    · rw [show AddChain.fuel (.cons op t m) + k
            = (Term.fuel t + (AddChain.fuel m + k)) + 1 from by rw [AddChain.fuel]; omega]
      refine exprLoop_step (Term.fuel t + (AddChain.fuel m + k)) n₀ nt _ st0 st1 _ ?_ ht0 hpt ?_
      · cases op <;> simp [AddOp.token]
      · rw [show Term.fuel t + (AddChain.fuel m + k)
              = AddChain.fuel m + (Term.fuel t + k) from by omega]
        rw [hseq] at hloop
        exact hloop
    · rw [AddChain.denoteFrom]
      exact he

/-- parsing the printed form of a reference expression. -/
theorem parse_print_expr : ∀ (e : Expr) (k : ℕ) (rest : List Char), ExprFollow rest →
    ∃ (node : ASTNode) (s₀ s₁ : PState),
      lexInit (Expr.print e ++ rest) = .ok s₀ ∧
      lexInit rest = .ok s₁ ∧
      parseExpression (Expr.fuel e + k) s₀ = .ok (node, s₁) ∧
      evalPure node (Expr.denote e)
  | .mk t more, k, rest, hf => by
    have htf : TermFollow (AddChain.print more ++ rest) := addChainPrint_termFollow more hf
    obtain ⟨nt, s₀, st1, h0, ht1, hpt, het⟩ :=
      parse_print_term t (AddChain.fuel more + k) (AddChain.print more ++ rest) htf
    obtain ⟨node, sm0, s₁, hm0, h1, hloop, he⟩ :=
      parse_print_addChain more (Term.fuel t + k) nt (Term.denote t) rest hf het
    have hseq : sm0 = st1 := by
      rw [ht1] at hm0
      injection hm0 with h2
      exact h2.symm
    refine ⟨node, s₀, s₁, ?_, h1, ?_, ?_⟩
    · rw [Expr.print, List.append_assoc]
      exact h0
    · rw [show Expr.fuel (.mk t more) + k
            = (Term.fuel t + (AddChain.fuel more + k)) + 1 from by rw [Expr.fuel]; omega]
      refine parseExpression_step (Term.fuel t + (AddChain.fuel more + k)) s₀ nt st1 _ hpt ?_
      rw [show Term.fuel t + (AddChain.fuel more + k)
            = AddChain.fuel more + (Term.fuel t + k) from by omega]
      rw [hseq] at hloop
      exact hloop
    · rw [Expr.denote]
      exact he

end

mutual

/-- the parser fuel of a factor is dominated by its printed length. -/
theorem factor_fuel_le : ∀ a : Factor, Factor.fuel a ≤ 4 * (Factor.print a).length
  | .num n => by
    have h1 : natDigits n ≠ [] := natDigits_ne_nil n
    have h2 : 0 < (natDigits n).length := List.length_pos.mpr h1
    rw [Factor.fuel, Factor.print]
    omega
  | .neg a => by
    have h := factor_fuel_le a
    rw [Factor.fuel, Factor.print]
    simp only [List.length_cons]
    omega
  | .paren e => by
    have h := expr_fuel_le e
    rw [Factor.fuel, Factor.print]
    simp only [List.length_cons, List.length_append, List.length_singleton]
    omega

/-- the parser fuel of a `*`/`/` chain is dominated by its printed
length. -/
theorem mulChain_fuel_le : ∀ m : MulChain, MulChain.fuel m ≤ 4 * (MulChain.print m).length + 1
  | .nil => by
    rw [MulChain.fuel]
    omega
  | .cons op f m => by
    have h1 := factor_fuel_le f
    have h2 := mulChain_fuel_le m
    rw [MulChain.fuel, MulChain.print]
    simp only [List.length_cons, List.length_append]
    omega

/-- the parser fuel of a term is dominated by its printed length. -/
theorem term_fuel_le : ∀ t : Term, Term.fuel t ≤ 4 * (Term.print t).length + 2
  | .mk f more => by
    have h1 := factor_fuel_le f
    have h2 := mulChain_fuel_le more
    rw [Term.fuel, Term.print]
    simp only [List.length_append]
    omega

/-- the parser fuel of a `+`/`-` chain is dominated by its printed
length. -/
theorem addChain_fuel_le : ∀ m : AddChain, AddChain.fuel m ≤ 4 * (AddChain.print m).length + 1
  | .nil => by
    rw [AddChain.fuel]
    omega
  | .cons op t m => by
    have h1 := term_fuel_le t
    have h2 := addChain_fuel_le m
    rw [AddChain.fuel, AddChain.print]
    simp only [List.length_cons, List.length_append]
    omega

/-- the parser fuel of an expression is dominated by its printed length,
hence by `fuelFor` of the printed string. -/
theorem expr_fuel_le : ∀ e : Expr, Expr.fuel e ≤ 4 * (Expr.print e).length + 4
  | .mk t more => by
    have h1 := term_fuel_le t
    have h2 := addChain_fuel_le more
    rw [Expr.fuel, Expr.print]
    simp only [List.length_append]
    omega

end

/-- C1: the claim that the driver catches EVERY error of a single line —
including command-tokenization errors of a `:`-prefixed line — fails on the
code: `commandsDivide` is called outside the driver's try/catch, so an
unclosed quote escapes `process` uncaught and aborts the session before the
following line is read (first conjunct), whereas lexing/parsing/evaluation
errors of an expression line are caught and the session continues to the
next line (second conjunct). -/
theorem C1_command_tokenization_error_escapes :
    process defaultFuns noFiles false [":f \"x", "1 + 1"] false initialEnv 0 =
      .error "Unclosed quote in input string." ∧
    process defaultFuns noFiles false ["1 +", "2 + 3"] false initialEnv 0 =
      .ok [("Ans", 5)] :=
  ⟨by with_unfolding_all rfl, by with_unfolding_all rfl⟩

/-- C2: for EVERY valid variable-free arithmetic expression — an arbitrary
tree of the spec-modelled reference grammar `Expr` (number literals, chains
of unary minuses, parenthesised sub-expressions, `*`/`/` chains binding
tighter than `+`/`-` chains), rendered to its character string — the code's
evaluation returns exactly the reference denotation, which computes
directly with standard precedence and LEFT-associative binary operators
(each chain folds its accumulated value in as the left operand), for every
environment and every interpretation of the built-ins; and in particular
the four spec examples `1 + 2 * 3 = 7`, `(1 + 2) * 3 = 9`,
`2 - 3 - 4 = -5` and `--3 = 3` hold.  Arithmetic is the exact `ℚ` model of
IEEE doubles; the examples are exact, so the two coincide there. -/
theorem C2_arithmetic_reference :
    (∀ (e : Expr) (F : Funs) (env : Env),
      calculate F (String.mk (Expr.print e)) env = .ok (Expr.denote e, env)) ∧
    calculate defaultFuns "1 + 2 * 3" initialEnv = .ok (7, initialEnv) ∧
    calculate defaultFuns "(1 + 2) * 3" initialEnv = .ok (9, initialEnv) ∧
    calculate defaultFuns "2 - 3 - 4" initialEnv = .ok (-5, initialEnv) ∧
    calculate defaultFuns "--3" initialEnv = .ok (3, initialEnv) := by
  refine ⟨?_, by with_unfolding_all rfl, by with_unfolding_all rfl,
    by with_unfolding_all rfl, by with_unfolding_all rfl⟩
  intro e F env
  obtain ⟨node, s₀, s₁, h0, h1, hp, he⟩ :=
    parse_print_expr e (fuelFor (String.mk (Expr.print e)) - Expr.fuel e) []
      (fun c hc => by simp at hc)
  have hlen : (String.mk (Expr.print e)).length = (Expr.print e).length := rfl
  have hbound : Expr.fuel e ≤ fuelFor (String.mk (Expr.print e)) := by
    have h := expr_fuel_le e
    rw [fuelFor, hlen]
    omega
  rw [show Expr.fuel e + (fuelFor (String.mk (Expr.print e)) - Expr.fuel e)
        = fuelFor (String.mk (Expr.print e)) from by omega] at hp
  rw [List.append_nil] at h0
  have hg : getNextToken (Expr.print e) = .ok (s₀.cur, s₀.rest) := lexInit_inv _ _ h0
  have hp2 : parseExpression (fuelFor (String.mk (Expr.print e))) ⟨s₀.cur, s₀.rest⟩ =
      .ok (node, s₁) := hp
  rw [calculate, show (String.mk (Expr.print e)).data = Expr.print e from rfl]
  simp only [hg, hp2]
  exact he F env

/-- C3: every bare line is evaluated as `"Ans = " + line`, whose outermost
node is an assignment to `Ans` writing last, so every successful evaluation
of such a line leaves `Ans` bound to the produced value (first conjunct,
for arbitrary lines, environments and built-in interpretations); through
the driver, `3 + 4` leaves `Ans = 7`, and `x = 5` leaves both `Ans` and `x`
bound to `5` (the driver really evaluates `Ans = x = 5`). -/
theorem C3_ans_binding :
    (∀ (F : Funs) (line : String) (env env₂ : Env) (v : ℚ),
      calculate F ("Ans = " ++ line) env = .ok (v, env₂) →
      lookupVar env₂ "Ans" = some v) ∧
    process defaultFuns noFiles false ["3 + 4"] false initialEnv 0 = .ok [("Ans", 7)] ∧
    process defaultFuns noFiles false ["x = 5"] false initialEnv 0 =
      .ok [("Ans", 5), ("x", 5)] :=
  ⟨calculate_ans, by with_unfolding_all rfl, by with_unfolding_all rfl⟩

/-- C3 witness: the general conjunct applied to the line `3 + 4` in the
startup environment, whose evaluation yields `7` and the environment
`[("Ans", 7)]`. -/
theorem C3_ans_binding_witness : lookupVar [("Ans", 7)] "Ans" = some 7 :=
  C3_ans_binding.1 defaultFuns "3 + 4" initialEnv [("Ans", 7)] 7
    (by with_unfolding_all rfl)

/-- C4 counterexample: the claim predicts that in `log(a = 2, a)` the first
argument's assignment `a = 2` commits before the second argument `a` is
read, making the call succeed; the code evaluates the second argument of
`log` first (`arguments[1]` is the left operand of `/` in line 147), so the
read of `a` fails with `UndefinedVariableError` and `a` is never bound. -/
theorem C4_log_order_counterexample :
    calculate defaultFuns "log(a = 2, a)" initialEnv =
      .error ("Undefined variable: a", initialEnv) ∧
    lookupVar initialEnv "a" = none :=
  ⟨by with_unfolding_all rfl, by with_unfolding_all rfl⟩

/-- C4 amended: assignments commit in the evaluator's source-text
evaluation order, which is first-argument-first for `pow` and `mod` and for
the operands of every binary operator, but second-argument-first for the
two-argument `log`: `pow(a = 2, a)` and `mod(b = 3, b)` succeed with the
assignment committed before the second argument is read; `log(c, c = 2)`
succeeds because the second argument is evaluated first; and
`(x = 1) + (y = 2)` commits `x` before `y` (visible in the insertion
order of the resulting environment). -/
theorem C4_amended_argument_order :
    calculate defaultFuns "pow(a = 2, a)" initialEnv = .ok (0, [("Ans", 0), ("a", 2)]) ∧
    calculate defaultFuns "mod(b = 3, b)" initialEnv = .ok (0, [("Ans", 0), ("b", 3)]) ∧
    calculate defaultFuns "log(c, c = 2)" initialEnv = .ok (0, [("Ans", 0), ("c", 2)]) ∧
    calculate defaultFuns "(x = 1) + (y = 2)" initialEnv =
      .ok (3, [("Ans", 0), ("x", 1), ("y", 2)]) :=
  ⟨by with_unfolding_all rfl, by with_unfolding_all rfl,
   by with_unfolding_all rfl, by with_unfolding_all rfl⟩

/-- C5 counterexample: in `x = 5 + y` with `y` undefined the assignment to
`x` never commits — `AssignmentNode::evaluate` stores only after the
right-hand side succeeded, and `5 + y` throws first — so, contrary to the
claim, `x` is NOT left bound: the evaluation error carries the unchanged
startup environment, the driver keeps that unchanged environment, and `x`
is absent from it. -/
theorem C5_rhs_failure_counterexample :
    calculate defaultFuns "x = 5 + y" initialEnv =
      .error ("Undefined variable: y", initialEnv) ∧
    process defaultFuns noFiles false ["x = 5 + y"] false initialEnv 0 = .ok initialEnv ∧
    lookupVar initialEnv "x" = none :=
  ⟨by with_unfolding_all rfl, by with_unfolding_all rfl, by with_unfolding_all rfl⟩

/-- C5 amended: assignments that already committed before the failure are
not rolled back: in `(x = 5) + y` the assignment `x = 5` completes first,
then the read of `y` throws, and the error environment (and the environment
the driver keeps for later lines) still contains `x = 5`. -/
theorem C5_amended_no_rollback :
    calculate defaultFuns "(x = 5) + y" initialEnv =
      .error ("Undefined variable: y", [("Ans", 0), ("x", 5)]) ∧
    process defaultFuns noFiles false ["(x = 5) + y"] false initialEnv 0 =
      .ok [("Ans", 0), ("x", 5)] ∧
    lookupVar [("Ans", 0), ("x", 5)] "x" = some 5 :=
  ⟨by with_unfolding_all rfl, by with_unfolding_all rfl, by with_unfolding_all rfl⟩

/-- C6 counterexample: `pow(2)` (arity 1) does raise `UnknownFunctionError`,
but its message is `"Unknown function: pow"`, built in line 151 from the
function name only: it contains no digit at all, so it does not name the
supplied arity as the claim states. -/
theorem C6_arity_message_counterexample :
    calculate defaultFuns "pow(2)" initialEnv =
      .error ("Unknown function: pow", initialEnv) ∧
    ("Unknown function: pow".data.all fun c => !c.isDigit) = true :=
  ⟨by with_unfolding_all rfl, by decide⟩

/-- C6 amended: every name/arity combination outside the fixed table (the
18 one-argument names; `log`, `pow`, `mod` with two arguments) fails with
`UnknownFunctionError`, whose message names the function but NOT the
supplied arity; in particular `pow(2)` raises `"Unknown function: pow"`. -/
theorem C6_amended_unknown_function :
    (∀ (F : Funs) (name : String) (args : List ASTNode) (env : Env),
      (args.length = 1 → name ∉ unaryNames) →
      (args.length = 2 → name ∉ binaryNames) →
      evaluate F (.FunctionCallNode name args) env =
        .error ("Unknown function: " ++ name, env)) ∧
    calculate defaultFuns "pow(2)" initialEnv =
      .error ("Unknown function: pow", initialEnv) := by
  refine ⟨?_, by with_unfolding_all rfl⟩
  intro F name args env h1 h2
  match args with
  | [] => simp only [evaluate]
  | [a] =>
    have h1s := h1 rfl
    simp only [unaryNames, List.mem_cons, List.not_mem_nil, or_false, not_or] at h1s
    obtain ⟨q1, q2, q3, q4, q5, q6, q7, q8, q9, q10, q11, q12, q13, q14, q15, q16, q17,
      q18, q19⟩ := h1s
    simp only [evaluate]
    rw [if_neg q1, if_neg q2, if_neg q3, if_neg q4, if_neg q5, if_neg q6, if_neg q7,
      if_neg q8, if_neg q9, if_neg q10, if_neg q11, if_neg q12, if_neg q13, if_neg q14,
      if_neg q15, if_neg q16, if_neg q17, if_neg q18, if_neg q19]
  | [a, b] =>
    have h2s := h2 rfl
    simp only [binaryNames, List.mem_cons, List.not_mem_nil, or_false, not_or] at h2s
    obtain ⟨q1, q2, q3⟩ := h2s
    simp only [evaluate]
    rw [if_neg q1, if_neg q2, if_neg q3]
  | a :: b :: c :: rest => simp only [evaluate]

/-- C6 amended witness: the dispatch conjunct applied to `pow` with one
argument, whose name/arity pair is outside the table. -/
theorem C6_amended_unknown_function_witness :
    evaluate defaultFuns (.FunctionCallNode "pow" [.NumberNode 2]) initialEnv =
      .error ("Unknown function: pow", initialEnv) :=
  C6_amended_unknown_function.1 defaultFuns "pow" [.NumberNode 2] initialEnv
    (fun _ => by decide) (fun h => by simp at h)

/-- C7: the command tokenizer splits `:file "a b.txt" 'c.txt'` into exactly
`["file", "a b.txt", "c.txt"]` (quotes grouping, order preserved), never
produces an empty term on any input, and raises `UnclosedQuoteError` when
the input ends inside a quote. -/
theorem C7_command_tokenizer :
    commandsDivide ":file \"a b.txt\" \x27c.txt\x27" = .ok ["file", "a b.txt", "c.txt"] ∧
    (∀ (input : String) (terms : List String),
      commandsDivide input = .ok terms → ∀ t ∈ terms, t ≠ "") ∧
    commandsDivide ":file \"a b" = .error "Unclosed quote in input string." := by
  refine ⟨by with_unfolding_all rfl, ?_, by with_unfolding_all rfl⟩
  intro input terms h t ht
  rw [commandsDivide] at h
  rcases hd : input.data with _ | ⟨c, rest⟩ <;> simp only [hd] at h
  · injection h with h2
    subst h2
    simp at ht
  · split_ifs at h with hc
    · injection h with h2
      subst h2
      simp at ht
    · exact cdLoop_terms_nonempty rest [] "" false '\x00' false terms (by simp) h t ht

/-- C7 witness: the no-empty-terms conjunct applied to the spec's example
input and its first produced term. -/
theorem C7_command_tokenizer_witness : ("file" : String) ≠ "" :=
  C7_command_tokenizer.2.1 ":file \"a b.txt\" \x27c.txt\x27" ["file", "a b.txt", "c.txt"]
    (by with_unfolding_all rfl) "file" (by simp)

/-- C8: `MAX_DEPTH` is 128; a driver invocation whose depth exceeds it
returns immediately with the environment untouched and no error (first two
conjuncts, for every stream, file system and environment); and sourcing a
file that sources itself terminates at the depth cap (third conjunct: the
full 129-level unfolding of the self-sourcing cycle). -/
theorem C8_depth_cap :
    MAX_DEPTH = 128 ∧
    (∀ (F : Funs) (fs : String → Option (List String)) (once : Bool)
      (lines : List String) (write : Bool) (env : Env) (depth : ℕ),
      MAX_DEPTH < depth → process F fs once lines write env depth = .ok env) ∧
    process defaultFuns selfFs false [":file self"] false initialEnv 0 = .ok initialEnv := by
  refine ⟨rfl, ?_, by with_unfolding_all rfl⟩
  intro F fs once lines write env depth h
  have hz : MAX_DEPTH + 1 - depth = 0 := by omega
  rw [process, hz, processDepth]

/-- C8 witness: the depth-cap conjunct applied at depth 129 on a nonempty
stream. -/
theorem C8_depth_cap_witness :
    process defaultFuns noFiles false ["1 + 1"] false initialEnv 129 = .ok initialEnv :=
  C8_depth_cap.2.1 defaultFuns noFiles false ["1 + 1"] false initialEnv 129 (by decide)

/-- C9 counterexample: the claim says EVERY expression line containing `^`
fails; but the parser stops pulling tokens once the parsed expression is
complete and `calculate` ignores trailing input, so the line `1 2 ^ 3`
(via the driver, evaluated as `Ans = 1 2 ^ 3`) parses just `1`, never lexes
the `^`, and succeeds with value 1. -/
theorem C9_caret_counterexample :
    process defaultFuns noFiles false ["1 2 ^ 3"] false initialEnv 0 = .ok [("Ans", 1)] ∧
    calculate defaultFuns "Ans = 1 2 ^ 3" initialEnv = .ok (1, [("Ans", 1)]) :=
  ⟨by with_unfolding_all rfl, by with_unfolding_all rfl⟩

/-- C9 amended: the lexer never produces a `POW` token (first conjunct, for
every input), and a `^` the lexer actually reaches is rejected as an
unexpected character, as in `2 ^ 3`, which fails with
`"Unexpected character: ^"`; only a `^` in the ignored tail after a
complete parse escapes this. -/
theorem C9_amended_caret_rejected :
    (∀ (cs : List Char) (t : Token) (r : List Char),
      getNextToken cs = .ok (t, r) → t.type ≠ .POW) ∧
    calculate defaultFuns "Ans = 2 ^ 3" initialEnv =
      .error ("Unexpected character: ^", initialEnv) :=
  ⟨getNextToken_no_POW, by with_unfolding_all rfl⟩

/-- C9 amended witness: the no-`POW` conjunct applied to the input `+`. -/
theorem C9_amended_caret_rejected_witness : (⟨.PLUS, ""⟩ : Token).type ≠ .POW :=
  C9_amended_caret_rejected.1 ['+'] ⟨.PLUS, ""⟩ [] rfl

/-- C10: any maximal nonempty run of digits and dots, however many dots it
contains, is lexed as one `NUMBER` token whose text is the whole run (first
conjunct, for every run and follower); `stod` converts `"1.2.3"` by its
longest valid prefix to `1.2 = 6/5`; and the full pipeline accepts the line
`1.2.3` and evaluates it to `6/5` instead of rejecting it. -/
theorem C10_number_token_longest_prefix :
    (∀ (ds rest : List Char),
      ds ≠ [] →
      (∀ c ∈ ds, isNumChar c = true) →
      (∀ c, rest.head? = some c → isNumChar c = false) →
      getNextToken (ds ++ rest) = .ok (⟨.NUMBER, String.mk ds⟩, rest)) ∧
    stod "1.2.3" = .ok (6/5) ∧
    calculate defaultFuns "Ans = 1.2.3" initialEnv = .ok (6/5, [("Ans", 6/5)]) := by
  exact ⟨fun ds rest hne hall hrest => getNextToken_number_run ds rest hne hall hrest,
    by with_unfolding_all rfl, by with_unfolding_all rfl⟩

/-- C10 witness: the single-token conjunct applied to the run `1.2.3`
followed by end of input. -/
theorem C10_number_token_longest_prefix_witness :
    getNextToken (['1', '.', '2', '.', '3'] ++ []) =
      .ok (⟨.NUMBER, String.mk ['1', '.', '2', '.', '3']⟩, []) :=
  C10_number_token_longest_prefix.1 ['1', '.', '2', '.', '3'] []
    (by decide) (by decide) (fun c h => by simp at h)

end Scalc
